import Mathlib

/-!
Shallow embedding of the agentic code-review loop of the `ai-code-review`
GitHub Action.

The embedding follows the current generation of the sources:

* `src/src/base-ai-agent.js` (the version using `constants` and a mutex):
  `validateLineNumbers`, `addReviewComment`, `getFileContentWithCache`
  with the FIFO cache eviction and the line-numbered windowing;
* `src/src/openai-agent.js` (the `while (true)` version):
  `handleMessageResponse` (modelled as `runLoop`), `doReview`'s
  initial review state;
* `src/unnamed/part_012` (`constants.js`): `MAX_REVIEW_ITERATIONS`,
  `LINE_SPAN`, `MAX_CACHE_ENTRIES`;
* `src/unnamed/part_009` (the Anthropic agent) and the second version of
  `openai-agent.js`: the `seenToolCalls` de-duplication wrapper around
  `get_file_content` (modelled as `handleGetFileContentDedup`).

JavaScript values that flow into `Number.isInteger` checks are modelled by
`JsVal` (an integer number, or anything else); file-path arguments by
`JsStrVal` (a string, or anything else).  External collaborators
(`fileContentGetter`, `fileCommentator`) are parameters in `Env`; their
invocations are recorded in an `Event` trace, as are follow-up model calls.
The single-threaded cooperative scheduling of one batch of tool calls is
modelled by processing the batch in order (the mutable effects of the JS
handlers are sequentialised exactly as `Promise.all` over the batch does for
this code: the cache mutex is held across check-fetch-store, and all other
handler effects are synchronous).
-/

/-- A JavaScript value as seen by `Number.isInteger` checks: either a number
that is an integer, or any other value (non-integer number, string,
`undefined`, ...). -/
inductive JsVal where
  | int : Int → JsVal
  | nonInt : JsVal
deriving DecidableEq, Repr

/-- A JavaScript value as seen by `typeof v !== "string"` checks: either a
string or any other value. -/
inductive JsStrVal where
  | str : String → JsStrVal
  | nonStr : JsStrVal
deriving DecidableEq, Repr

/-- Model of `Number.isInteger`. -/
def isIntJs : JsVal → Bool
  | .int _ => true
  | .nonInt => false

/-- The integer carried by a `JsVal`; only meaningful after an
`isIntJs` check, mirroring the JS code which only compares the value after
`Number.isInteger` succeeded. -/
def jsToInt : JsVal → Int
  | .int n => n
  | .nonInt => 0

/-- Observable interactions with the outside world during a review. -/
inductive Event where
  | fetch (path : String)
  | commentDispatch (text pathToFile side : String) (startLine endLine : Int)
  | modelCall
deriving DecidableEq, Repr

/-- The injected external collaborators (`fileContentGetter`,
`fileCommentator`); an `Except.error` models the collaborator throwing. -/
structure Env where
  fileContentGetter : String → Except String String
  fileCommentator : String → String → String → Int → Int → Except String Unit

/- ### constants.js (src/unnamed/part_012) -/

/-- Constant `MAX_REVIEW_ITERATIONS = 142` from `constants.js`. -/
def MAX_REVIEW_ITERATIONS : Nat := 142

/-- Constant `LINE_SPAN = 20` from `constants.js`. -/
def LINE_SPAN : Int := 20

/-- Constant `MAX_CACHE_ENTRIES = 1000` from `constants.js`. -/
def MAX_CACHE_ENTRIES : Nat := 1000

/- ### JS `Map` as an insertion-ordered association list -/

/-- Model of `Map.prototype.has`. -/
def mapHas (l : List (String × String)) (k : String) : Bool :=
  l.any (fun kv => kv.1 == k)

/-- Model of `Map.prototype.get`. -/
def mapGet (l : List (String × String)) (k : String) : Option String :=
  (l.find? (fun kv => kv.1 == k)).map (fun kv => kv.2)

/-- Model of `Map.prototype.set`: updates in place on an existing key, otherwise
appends (JS `Map` preserves insertion order). -/
def mapSet (l : List (String × String)) (k v : String) : List (String × String) :=
  match l with
  | [] => [(k, v)]
  | kv :: rest => if kv.1 == k then (k, v) :: rest else kv :: mapSet rest k v

/-- Model of `Map.prototype.delete`: removes the entry with the given key (keys are
unique in a `Map`, so removing the first occurrence is exact). -/
def mapDelete (l : List (String × String)) (k : String) : List (String × String) :=
  match l with
  | [] => []
  | kv :: rest => if kv.1 == k then rest else kv :: mapDelete rest k

/-- Per-agent mutable state: the file cache (`this.fileCache`, a JS `Map`
keyed by path) and the bound `this.MAX_CACHE_ENTRIES` copied from
`constants.MAX_CACHE_ENTRIES` by the constructor. -/
structure AgentState where
  fileCache : List (String × String)
  maxCacheEntries : Nat
deriving DecidableEq, Repr

/-- The agent state as built by the `BaseAIAgent` constructor. -/
def initialAgentState : AgentState :=
  { fileCache := [], maxCacheEntries := MAX_CACHE_ENTRIES }

/- ### base-ai-agent.js: validateLineNumbers / addReviewComment -/

/-- Function `validateLineNumbers` from `base-ai-agent.js`: `some err` is the error
string returned, `none` means validation passed. -/
def validateLineNumbers (s e : JsVal) : Option String :=
  if !(isIntJs s) || jsToInt s < 1 then
    some "Error: Start line number must be a positive integer"
  else if !(isIntJs e) || jsToInt e < 1 then
    some "Error: End line number must be a positive integer"
  else if jsToInt s > jsToInt e then
    some "Error: Start line number cannot be greater than end line number"
  else
    none

/-- Function `addReviewComment` from `base-ai-agent.js` (the non-throwing version:
`handleError` is called with `throwError = false`, so validation and
dispatch failures come back as the returned string).  The returned event
list records the calls made to the external `fileCommentator`. -/
def addReviewComment (env : Env) (fileName : String) (s e : JsVal)
    (foundErrorDescription side : String) : String × List Event :=
  match validateLineNumbers s e with
  | some err => (err, [])
  | none =>
    match env.fileCommentator foundErrorDescription fileName side (jsToInt s) (jsToInt e) with
    | .ok _ =>
        ("Success! The review comment has been published.",
         [Event.commentDispatch foundErrorDescription fileName side (jsToInt s) (jsToInt e)])
    | .error msg =>
        ("Error! Please ensure that the lines you specify for the comment are part of the DIFF! Error message: " ++ msg,
         [Event.commentDispatch foundErrorDescription fileName side (jsToInt s) (jsToInt e)])

/- ### base-ai-agent.js: getFileContentWithCache -/

/-- Model of `content.split(/\r?\n/)` on the character list: scanning left
to right, each line feed (with one optional carriage return directly
before it) ends the current piece, exactly as the regex split does. -/
def splitLinesChars : List Char → List (List Char)
  | [] => [[]]
  | '\r' :: '\n' :: rest => [] :: splitLinesChars rest
  | '\n' :: rest => [] :: splitLinesChars rest
  | c :: rest =>
    match splitLinesChars rest with
    | [] => [[c]]
    | line :: more => (c :: line) :: more

/-- Model of `content.split(/\r?\n/)`. -/
def splitLinesJs (s : String) : List String :=
  (splitLinesChars s.toList).map (fun cs => String.mk cs)

/-- Model of `String.prototype.padStart(width, " ")`. -/
def padStart (s : String) (w : Nat) : String :=
  if w ≤ s.length then s else String.mk (List.replicate (w - s.length) ' ') ++ s

/-- The pad width `Math.max(4, String(lines.length).length)`. -/
def numberWidth (lineCount : Nat) : Nat :=
  max 4 (toString lineCount).length

/-- One numbered output line: 0-based line index `idx` is shown as the
1-indexed number `idx + 1`, left-padded to `width`. -/
def renderLine (width idx : Nat) (line : String) : String :=
  padStart (toString (idx + 1)) width ++ ": " ++ line

/-- Escaping of the path in the fence label: `\` becomes `\\` and a
backtick gets a backslash in front. -/
def escapePathChar (c : Char) : String :=
  if c = '\\' then "\\\\" else if c = '`' then "\\`" else String.mk [c]

/-- Model of `pathToFile.replace(/\\/g, "\\\\").replace(/`/g, "\\`")`. -/
def escapePath (p : String) : String :=
  String.join (p.toList.map escapePathChar)

/-- The effective span: `Number.isInteger(LINE_SPAN) && LINE_SPAN >= 0 ?
LINE_SPAN : 3`. -/
def spanValue : Int :=
  if 0 ≤ LINE_SPAN then LINE_SPAN else 3

/-- The slice lower bound `Math.max(0, startLineNumber - 1 - span)`. -/
def windowStart (sv : Int) : Nat :=
  (max 0 (sv - 1 - spanValue)).toNat

/-- The slice upper bound `Math.min(lines.length, endLineNumber + span)`. -/
def windowEnd (lineCount : Nat) (ev : Int) : Nat :=
  min lineCount (ev + spanValue).toNat

/-- The numbered excerpt of `getFileContentWithCache`: slice
`[max(0, start-1-span), min(lineCount, end+span))` out of the split lines
and number each retained line by its true 1-indexed position. -/
def windowNumbered (content : String) (sv ev : Int) : List String :=
  (((splitLinesJs content).drop (windowStart sv)).take
      (windowEnd (splitLinesJs content).length ev - windowStart sv)).enum.map
    (fun q => renderLine (numberWidth (splitLinesJs content).length)
      (windowStart sv + q.1) q.2)

/-- The windowing step of `getFileContentWithCache`: the numbered excerpt,
joined and wrapped in a fenced block labeled with the (escaped) file
path. -/
def windowContent (pathToFile content : String) (sv ev : Int) : String :=
  "```" ++ escapePath pathToFile ++ "\n" ++
    String.intercalate "\n" (windowNumbered content sv ev) ++ "\n```"

/-- The cache update of `getFileContentWithCache`: `set`, then if
`size > MAX_CACHE_ENTRIES` delete the oldest (first-inserted) key. -/
def cacheInsertWithEvict (cache : List (String × String)) (maxEntries : Nat)
    (p content : String) : List (String × String) :=
  if maxEntries < (mapSet cache p content).length then
    match (mapSet cache p content).head? with
    | some kv => mapDelete (mapSet cache p content) kv.1
    | none => mapSet cache p content
  else mapSet cache p content

/-- Function `getFileContentWithCache` from `base-ai-agent.js`.  The two validation
guards throw (`Except.error`) before the cache lock is taken; every error
inside the guarded region is caught and returned as an ordinary string.
The mutex is held across the whole check-fetch-store sequence in this
version of the code, so sequential state passing is a faithful model. -/
def getFileContentWithCache (env : Env) (ast : AgentState) (path : JsStrVal)
    (s e : JsVal) : Except String (String × AgentState × List Event) :=
  match path with
  | .nonStr => .error "Invalid file path provided"
  | .str p =>
    if p == "" then .error "Invalid file path provided"
    else
      match s, e with
      | .int sv, .int ev =>
        if sv < 1 || ev < 1 || ev < sv then .error "Invalid line numbers provided"
        else
          match mapGet ast.fileCache p with
          | some content => .ok (windowContent p content sv ev, ast, [])
          | none =>
            match env.fileContentGetter p with
            | .error msg => .ok ("Error getting file content: " ++ msg, ast, [Event.fetch p])
            | .ok content =>
              let newCache := cacheInsertWithEvict ast.fileCache ast.maxCacheEntries p content
              .ok (windowContent p content sv ev, { ast with fileCache := newCache },
                   [Event.fetch p])
      | _, _ => .error "Invalid line numbers provided"

/- ### openai-agent.js: the review loop (`handleMessageResponse`) -/

/-- A tool call as parsed from `JSON.parse(toolCall.function.arguments)`,
dispatched on `toolCall.function.name`; `id` is the provider-assigned
`tool_call_id`.  For `add_review_comment`, `side = none` models an absent
`side` property, which the destructuring defaults to `"RIGHT"`. -/
inductive ToolCall where
  | get_file_content (id : Nat) (path : JsStrVal) (s e : JsVal)
  | add_review_comment (id : Nat) (file : String) (s e : JsVal) (desc : String)
      (side : Option String)
  | mark_as_done (id : Nat) (briefSummary : String)
  | other (id : Nat) (name : String)
deriving DecidableEq, Repr

/-- The identifier of a tool call. -/
def ToolCall.callId : ToolCall → Nat
  | .get_file_content id _ _ _ => id
  | .add_review_comment id _ _ _ _ _ => id
  | .mark_as_done id _ => id
  | .other id _ => id

/-- Whether a tool call is the completion tool `mark_as_done`. -/
def ToolCall.isMarkAsDone : ToolCall → Bool
  | .mark_as_done _ _ => true
  | _ => false

/-- Whether a tool call is `add_review_comment`. -/
def ToolCall.isAddReviewComment : ToolCall → Bool
  | .add_review_comment _ _ _ _ _ _ => true
  | _ => false

/-- A model response (`choices[0].message`): its text content (`""` models
a null or empty `content`, both falsy in JS) and its tool calls (`[]`
models an absent or empty `tool_calls` array, both falsy guards). -/
structure Message where
  content : String
  tool_calls : List ToolCall
deriving DecidableEq, Repr

/-- An entry of `reviewState.messageHistory`. -/
inductive HistMsg where
  | user (content : String)
  | assistant (content : String) (toolCalls : List ToolCall)
  | tool (content : String) (toolCallId : Nat)
deriving DecidableEq, Repr

/-- Whether a history entry has the assistant role. -/
def HistMsg.isAssistant : HistMsg → Bool
  | .assistant _ _ => true
  | _ => false

/-- Model of `Set.prototype.add` on an insertion-ordered set. -/
def setAdd (l : List String) (x : String) : List String :=
  if l.contains x then l else l ++ [x]

/-- The `reviewState` object built by `doReview` in `openai-agent.js` and
threaded through `handleMessageResponse`. -/
structure ReviewState where
  summary : String
  reviewedFiles : List String
  commentsMade : Nat
  maxIterations : Nat
  iterationCount : Nat
  messageHistory : List HistMsg
deriving DecidableEq, Repr

/-- The fresh `reviewState` of `doReview`, after pushing the initial user
message (whose serialized changed-files text is the parameter). -/
def initialReviewState (userContent : String) : ReviewState :=
  { summary := ""
    reviewedFiles := []
    commentsMade := 0
    maxIterations := MAX_REVIEW_ITERATIONS
    iterationCount := 0
    messageHistory := [HistMsg.user userContent] }

/-- The fallback summary returned when the iteration ceiling is reached:
synthesized from the accumulated counters. -/
def terminatedSummary (rs : ReviewState) : String :=
  "Code review terminated after " ++ toString rs.iterationCount ++
  " iterations. Reviewed " ++ toString rs.reviewedFiles.length ++
  " files with " ++ toString rs.commentsMade ++ " comments."

/-- The generic summary used when the model stops calling tools with no
summary captured. -/
def completedSummary (rs : ReviewState) : String :=
  "Code review completed. Reviewed " ++ toString rs.reviewedFiles.length ++
  " files with " ++ toString rs.commentsMade ++ " comments."

/-- One arm of the `switch` over `toolCall.function.name` inside the
`Promise.all` handler of `handleMessageResponse`: returns the optional tool
reply (`mark_as_done` produces none), the updated review and agent states,
and the trace of external calls.  A throw out of
`getFileContentWithCache` is caught by the per-call `catch`, which turns it
into an `Error: ...` tool reply. -/
def processOneToolCall (env : Env) (tc : ToolCall) (rs : ReviewState)
    (ast : AgentState) : Option HistMsg × ReviewState × AgentState × List Event :=
  match tc with
  | .get_file_content id path s e =>
    match getFileContentWithCache env ast path s e with
    | .ok (out, ast2, evs) => (some (HistMsg.tool out id), rs, ast2, evs)
    | .error msg => (some (HistMsg.tool ("Error: " ++ msg) id), rs, ast, [])
  | .add_review_comment id file s e desc side =>
    let out := addReviewComment env file s e desc (side.getD "RIGHT")
    (some (HistMsg.tool out.1 id),
     { rs with reviewedFiles := setAdd rs.reviewedFiles file,
               commentsMade := rs.commentsMade + 1 },
     ast, out.2)
  | .mark_as_done _ briefSummary =>
    (none, { rs with summary := briefSummary }, ast, [])
  | .other id name =>
    (some (HistMsg.tool ("Unknown tool: " ++ name) id), rs, ast, [])

/-- The whole `Promise.all(message.tool_calls.map(...))` of
`handleMessageResponse`, sequentialised in batch order (see the module
comment): returns the non-null tool replies in order, the final states and
the concatenated event trace. -/
def processToolCalls (env : Env) : List ToolCall → ReviewState → AgentState →
    List HistMsg × ReviewState × AgentState × List Event
  | [], rs, ast => ([], rs, ast, [])
  | tc :: rest, rs, ast =>
    let r1 := processOneToolCall env tc rs ast
    let r2 := processToolCalls env rest r1.2.1 r1.2.2.1
    (r1.1.toList ++ r2.1, r2.2.1, r2.2.2.1, r1.2.2.2 ++ r2.2.2.2)

/-- The outcome of the loop: the returned summary string, or the message of
an uncaught throw. -/
structure LoopResult where
  outcome : Except String String
  rs : ReviewState
  ast : AgentState
  events : List Event
deriving Repr

/-- The state after recording the assistant reply: `iterationCount++` and
the assistant message pushed onto `messageHistory`. -/
def afterAssistantPush (msg : Message) (rs : ReviewState) : ReviewState :=
  { rs with iterationCount := rs.iterationCount + 1,
            messageHistory :=
              rs.messageHistory ++ [HistMsg.assistant msg.content msg.tool_calls] }

/-- The no-tool-calls update: a non-empty (truthy) `message.content` becomes
the summary when none is set yet. -/
def noToolsUpdate (msg : Message) (rs : ReviewState) : ReviewState :=
  if msg.content ≠ "" ∧ rs.summary = "" then { rs with summary := msg.content } else rs

/-- The state after a whole tool-call batch: the batch is processed from
the post-push state and the non-null tool replies are appended to
`messageHistory`. -/
def afterBatch (env : Env) (msg : Message) (rs : ReviewState) (ast : AgentState) :
    ReviewState :=
  { (processToolCalls env msg.tool_calls (afterAssistantPush msg rs) ast).2.1 with
      messageHistory :=
        (processToolCalls env msg.tool_calls (afterAssistantPush msg rs) ast).2.1.messageHistory ++
          (processToolCalls env msg.tool_calls (afterAssistantPush msg rs) ast).1 }

/-- The agent state after a whole tool-call batch. -/
def batchAst (env : Env) (msg : Message) (rs : ReviewState) (ast : AgentState) :
    AgentState :=
  (processToolCalls env msg.tool_calls (afterAssistantPush msg rs) ast).2.2.1

/-- The events of a whole tool-call batch. -/
def batchEvents (env : Env) (msg : Message) (rs : ReviewState) (ast : AgentState) :
    List Event :=
  (processToolCalls env msg.tool_calls (afterAssistantPush msg rs) ast).2.2.2

/-- Function `handleMessageResponse` of `openai-agent.js` (the `while (true)`
version).  The model is an oracle: the list of messages the provider would
return to successive follow-up calls (`none` is a response with no
`choices[0].message`, which the `if (!message)` guard turns into a throw;
an exhausted oracle models the follow-up call itself throwing).  Each
follow-up call is recorded as `Event.modelCall`. -/
def runLoop (env : Env) : List (Option Message) → Option Message → ReviewState →
    AgentState → LoopResult
  | _, none, rs, ast => ⟨.error "Invalid response from OpenAI API", rs, ast, []⟩
  | oracle, some msg, rs, ast =>
    if rs.maxIterations ≤ rs.iterationCount then
      ⟨.ok (terminatedSummary rs), rs, ast, []⟩
    else if msg.tool_calls.isEmpty then
      ⟨.ok (if (noToolsUpdate msg (afterAssistantPush msg rs)).summary ≠ ""
            then (noToolsUpdate msg (afterAssistantPush msg rs)).summary
            else completedSummary (noToolsUpdate msg (afterAssistantPush msg rs))),
       noToolsUpdate msg (afterAssistantPush msg rs), ast, []⟩
    else if (afterBatch env msg rs ast).summary ≠ "" then
      ⟨.ok (afterBatch env msg rs ast).summary, afterBatch env msg rs ast,
       batchAst env msg rs ast, batchEvents env msg rs ast⟩
    else
      match oracle with
      | [] =>
        ⟨.error "OpenAI API error in follow-up", afterBatch env msg rs ast,
         batchAst env msg rs ast, batchEvents env msg rs ast⟩
      | m :: rest =>
        ⟨(runLoop env rest m (afterBatch env msg rs ast) (batchAst env msg rs ast)).outcome,
         (runLoop env rest m (afterBatch env msg rs ast) (batchAst env msg rs ast)).rs,
         (runLoop env rest m (afterBatch env msg rs ast) (batchAst env msg rs ast)).ast,
         batchEvents env msg rs ast ++ Event.modelCall ::
           (runLoop env rest m (afterBatch env msg rs ast) (batchAst env msg rs ast)).events⟩

/- ### Anthropic agent (src/unnamed/part_009): seenToolCalls de-duplication -/

/-- The de-duplication part of the per-review state of the Anthropic agent
(and of the second `openai-agent.js` version): `seenToolCalls` and
`processedFiles`. -/
structure DedupState where
  seenToolCalls : List String
  processedFiles : List String
deriving DecidableEq, Repr

/-- The template-literal request key
`path_to_file + "-" + start_line_number + "-" + end_line_number`. -/
def fileRequestKey (p : String) (sv ev : Int) : String :=
  p ++ "-" ++ toString sv ++ "-" ++ toString ev

/-- The canned notice returned for a repeated identical request. -/
def dedupNotice (p : String) (sv ev : Int) : String :=
  "Previously provided content for " ++ p ++ " lines " ++ toString sv ++ "-" ++
  toString ev ++ "."

/-- The `get_file_content` arm of the Anthropic agent's
`handleMessageResponse` (part_009 lines 237 to 246): a request whose
`(path, start, end)` key is in `seenToolCalls` returns the canned notice
without touching the cache; otherwise the request goes through
`getFileContentWithCache` and the key is recorded.  A validation throw is
caught by the per-call `catch` (so nothing is recorded for it). -/
def handleGetFileContentDedup (env : Env) (ds : DedupState) (ast : AgentState)
    (p : String) (sv ev : Int) : String × DedupState × AgentState × List Event :=
  if ds.seenToolCalls.contains (fileRequestKey p sv ev) then
    (dedupNotice p sv ev, ds, ast, [])
  else
    match getFileContentWithCache env ast (JsStrVal.str p) (JsVal.int sv) (JsVal.int ev) with
    | .ok (out, ast2, evs) =>
      (out,
       { ds with seenToolCalls := ds.seenToolCalls ++ [fileRequestKey p sv ev],
                 processedFiles := setAdd ds.processedFiles p },
       ast2, evs)
    | .error msg => ("Error: " ++ msg, ds, ast, [])

/- ### trace counting helpers -/

/-- Number of follow-up model calls in a trace. -/
def countModelCalls (evs : List Event) : Nat :=
  evs.countP (fun ev => match ev with | Event.modelCall => true | _ => false)

/-- Number of external fetches of a given path in a trace. -/
def countFetches (p : String) (evs : List Event) : Nat :=
  evs.countP (fun ev => match ev with | Event.fetch q => q == p | _ => false)

/-- Number of external comment dispatches in a trace. -/
def countDispatches (evs : List Event) : Nat :=
  evs.countP (fun ev => match ev with | Event.commentDispatch _ _ _ _ _ => true | _ => false)

/-- Number of assistant entries in a message history. -/
def assistCount (h : List HistMsg) : Nat :=
  h.countP HistMsg.isAssistant

/-- The `brief_summary` carried by a `mark_as_done` call. -/
def markValue : ToolCall → Option String
  | ToolCall.mark_as_done _ s => some s
  | _ => none

/-- The identifier of a tool reply in the history. -/
def histToolId : HistMsg → Option Nat
  | HistMsg.tool _ id => some id
  | _ => none

/-- The `brief_summary` of the last `mark_as_done` in a batch, if any
(each `mark_as_done` handler overwrites `reviewState.summary`, so the last
one in batch order wins). -/
def lastMarkAsDoneSummary : List ToolCall → Option String
  | [] => none
  | tc :: rest =>
    match lastMarkAsDoneSummary rest with
    | some s => some s
    | none => markValue tc

/- ### concrete collaborators used for counterexamples and witnesses -/

/-- Collaborators that always succeed. -/
def envAllOk : Env :=
  { fileContentGetter := fun _ => Except.ok "A\nB\nC"
    fileCommentator := fun _ _ _ _ _ => Except.ok () }

/-- A commentator that always rejects (lines outside the diff hunk). -/
def envRejecting : Env :=
  { fileContentGetter := fun _ => Except.ok "A\nB\nC"
    fileCommentator := fun _ _ _ _ _ => Except.error "outside diff" }

/- ### helper lemmas: validateLineNumbers and addReviewComment -/

/-- Validation passes exactly for integer bounds with
`1 ≤ start ≤ end`. -/
theorem validateLineNumbers_eq_none_iff (s e : JsVal) :
    validateLineNumbers s e = none ↔
      isIntJs s = true ∧ isIntJs e = true ∧
        1 ≤ jsToInt s ∧ jsToInt s ≤ jsToInt e := by
  cases s with
  | nonInt => simp [validateLineNumbers, isIntJs]
  | int sv =>
    cases e with
    | nonInt =>
      simp only [validateLineNumbers, isIntJs]
      constructor
      · intro h
        split at h <;> simp_all
      · intro h
        simp_all
    | int ev =>
      simp only [validateLineNumbers, isIntJs, jsToInt, Bool.not_true,
        Bool.false_or, decide_eq_true_eq]
      split_ifs with h1 h2 h3 <;> simp <;> omega

/-- A validation failure is returned as the tool-result string and makes
no external dispatch. -/
theorem addReviewComment_validation (env : Env) (fileName : String)
    (s e : JsVal) (desc side err : String)
    (h : validateLineNumbers s e = some err) :
    addReviewComment env fileName s e desc side = (err, []) := by
  unfold addReviewComment
  rw [h]

/-- A call with valid bounds dispatches exactly one external comment with
those exact bounds and side. -/
theorem addReviewComment_valid (env : Env) (fileName : String)
    (sv ev : Int) (desc side : String) (h1 : 1 ≤ sv) (h2 : sv ≤ ev) :
    (addReviewComment env fileName (JsVal.int sv) (JsVal.int ev) desc side).2 =
      [Event.commentDispatch desc fileName side sv ev] ∧
    (env.fileCommentator desc fileName side sv ev = Except.ok () →
      (addReviewComment env fileName (JsVal.int sv) (JsVal.int ev) desc side).1 =
        "Success! The review comment has been published.") := by
  have hv : validateLineNumbers (JsVal.int sv) (JsVal.int ev) = none := by
    rw [validateLineNumbers_eq_none_iff]
    exact ⟨rfl, rfl, h1, h2⟩
  unfold addReviewComment
  rw [hv]
  have hj1 : jsToInt (JsVal.int sv) = sv := rfl
  have hj2 : jsToInt (JsVal.int ev) = ev := rfl
  rw [hj1, hj2]
  cases hc : env.fileCommentator desc fileName side sv ev with
  | ok u => exact ⟨rfl, fun _ => rfl⟩
  | error msg =>
    refine ⟨rfl, fun hok => ?_⟩
    exact Except.noConfusion hok

/- ### C4 / C5: comment validator and emitter -/

/-- C4, counterexample: the claimed validation step (3), `side ∈ {LEFT,
RIGHT}`, does not exist in `addReviewComment`: with valid bounds, a side
outside {LEFT, RIGHT} is not rejected — the comment is dispatched to the
external `fileCommentator` with that side unchanged and the call reports
success. -/
theorem claim_C4_counterexample :
    addReviewComment envAllOk "f.js" (JsVal.int 1) (JsVal.int 2) "desc" "NEITHER" =
      ("Success! The review comment has been published.",
       [Event.commentDispatch "desc" "f.js" "NEITHER" 1 2]) := rfl

/-- C4 (amended): for all `(startLine, endLine)` with `startLine > endLine`,
or either bound `< 1`, or either bound not an integer, `addReviewComment`
returns a human-readable error string as the tool result rather than
throwing, and dispatches zero calls to the external `fileCommentator`;
validation proceeds in the order (1) start bound a positive integer,
(2) end bound a positive integer, (3) `startLine ≤ endLine`; the `side`
argument is defaulted to RIGHT by the adapter when absent but is not
itself validated. -/
theorem claim_C4_amended :
    (∀ s e, validateLineNumbers s e = none ↔
      isIntJs s = true ∧ isIntJs e = true ∧
        1 ≤ jsToInt s ∧ jsToInt s ≤ jsToInt e) ∧
    (∀ env fileName s e desc side err,
      validateLineNumbers s e = some err →
      addReviewComment env fileName s e desc side = (err, [])) ∧
    (∀ s e, (isIntJs s = false ∨ jsToInt s < 1) →
      validateLineNumbers s e =
        some "Error: Start line number must be a positive integer") ∧
    (∀ s e, isIntJs s = true → 1 ≤ jsToInt s →
      (isIntJs e = false ∨ jsToInt e < 1) →
      validateLineNumbers s e =
        some "Error: End line number must be a positive integer") ∧
    (∀ sv ev : Int, 1 ≤ sv → 1 ≤ ev → ev < sv →
      validateLineNumbers (JsVal.int sv) (JsVal.int ev) =
        some "Error: Start line number cannot be greater than end line number") ∧
    (∀ env id file s e desc rs ast,
      processOneToolCall env (ToolCall.add_review_comment id file s e desc none) rs ast =
        processOneToolCall env
          (ToolCall.add_review_comment id file s e desc (some "RIGHT")) rs ast) := by
  refine ⟨validateLineNumbers_eq_none_iff, addReviewComment_validation, ?_, ?_, ?_, ?_⟩
  · intro s e h
    cases s with
    | nonInt => simp [validateLineNumbers, isIntJs]
    | int sv =>
      simp only [isIntJs, jsToInt] at h
      have hsv : sv < 1 := by
        rcases h with h | h
        · exact absurd h (by simp)
        · exact h
      simp [validateLineNumbers, isIntJs, jsToInt, hsv]
  · intro s e hs h1 h
    cases s with
    | nonInt => exact absurd hs (by simp [isIntJs])
    | int sv =>
      simp only [jsToInt] at h1
      cases e with
      | nonInt =>
        simp [validateLineNumbers, isIntJs, jsToInt]
        omega
      | int ev =>
        simp only [isIntJs, jsToInt] at h
        have hev : ev < 1 := by
          rcases h with h | h
          · exact absurd h (by simp)
          · exact h
        simp [validateLineNumbers, isIntJs, jsToInt, hev]
        omega
  · intro sv ev h1 h2 h3
    have ha : ¬ (sv < 1) := by omega
    have hb : ¬ (ev < 1) := by omega
    have hc : sv > ev := by omega
    simp [validateLineNumbers, isIntJs, jsToInt, ha, hb, hc]
  · intro env id file s e desc rs ast
    rfl

/-- C4, witness. -/
theorem claim_C4_witness :
    validateLineNumbers (JsVal.int 2) (JsVal.int 1) =
      some "Error: Start line number cannot be greater than end line number" ∧
    addReviewComment envAllOk "g.js" (JsVal.int 2) (JsVal.int 1) "d" "RIGHT" =
      ("Error: Start line number cannot be greater than end line number", []) :=
  ⟨claim_C4_amended.2.2.2.2.1 2 1 (by decide) (by decide) (by decide),
   claim_C4_amended.2.1 envAllOk "g.js" (JsVal.int 2) (JsVal.int 1) "d" "RIGHT" _
     (claim_C4_amended.2.2.2.2.1 2 1 (by decide) (by decide) (by decide))⟩

/-- C5: for all valid `(startLine, endLine)` with `1 ≤ startLine ≤ endLine`
(both integers), `addReviewComment` dispatches exactly one call to the
external `fileCommentator` with exactly those bounds and the requested
side, and returns the success confirmation string when the dispatch
succeeds. -/
theorem claim_C5 (env : Env) (fileName : String) (sv ev : Int)
    (desc side : String) (h1 : 1 ≤ sv) (h2 : sv ≤ ev) :
    (addReviewComment env fileName (JsVal.int sv) (JsVal.int ev) desc side).2 =
      [Event.commentDispatch desc fileName side sv ev] ∧
    (env.fileCommentator desc fileName side sv ev = Except.ok () →
      (addReviewComment env fileName (JsVal.int sv) (JsVal.int ev) desc side).1 =
        "Success! The review comment has been published.") :=
  addReviewComment_valid env fileName sv ev desc side h1 h2

/-- C5, witness. -/
theorem claim_C5_witness :
    (1 : Int) ≤ 1 ∧ (1 : Int) ≤ 2 ∧
    (addReviewComment envAllOk "f.js" (JsVal.int 1) (JsVal.int 2) "d" "LEFT").2 =
      [Event.commentDispatch "d" "f.js" "LEFT" 1 2] ∧
    (addReviewComment envAllOk "f.js" (JsVal.int 1) (JsVal.int 2) "d" "LEFT").1 =
      "Success! The review comment has been published." :=
  ⟨by decide, by decide,
   (claim_C5 envAllOk "f.js" 1 2 "d" "LEFT" (by decide) (by decide)).1,
   (claim_C5 envAllOk "f.js" 1 2 "d" "LEFT" (by decide) (by decide)).2 rfl⟩

/- ### C10: getFileContentWithCache argument validation -/

/-- C10: a non-string or empty path, or non-integer or out-of-order line
bounds, make `getFileContentWithCache` throw `Invalid file path provided`
or `Invalid line numbers provided` without touching the cache or invoking
the external fetch collaborator, and the adapter's per-tool-call catch
converts the throw into an `Error: ...` tool result (same review state,
same cache, no events) rather than aborting the review. -/
theorem claim_C10 :
    (∀ env ast s e, getFileContentWithCache env ast JsStrVal.nonStr s e =
        Except.error "Invalid file path provided") ∧
    (∀ env ast s e, getFileContentWithCache env ast (JsStrVal.str "") s e =
        Except.error "Invalid file path provided") ∧
    (∀ env ast p s e, (p == "") = false →
      (isIntJs s = false ∨ isIntJs e = false ∨
        jsToInt s < 1 ∨ jsToInt e < 1 ∨ jsToInt e < jsToInt s) →
      getFileContentWithCache env ast (JsStrVal.str p) s e =
        Except.error "Invalid line numbers provided") ∧
    (∀ env rs ast id path s e msg,
      getFileContentWithCache env ast path s e = Except.error msg →
      processOneToolCall env (ToolCall.get_file_content id path s e) rs ast =
        (some (HistMsg.tool ("Error: " ++ msg) id), rs, ast, [])) := by
  refine ⟨fun env ast s e => rfl, fun env ast s e => rfl, ?_, ?_⟩
  · intro env ast p s e hp h
    cases s with
    | nonInt => simp [getFileContentWithCache, hp]
    | int sv =>
      cases e with
      | nonInt => simp [getFileContentWithCache, hp]
      | int ev =>
        simp only [isIntJs, jsToInt] at h
        have hcond : (decide (sv < 1) || decide (ev < 1) || decide (ev < sv)) = true := by
          simp only [Bool.or_eq_true, decide_eq_true_eq]
          rcases h with h | h | h | h | h
          · exact absurd h (by simp)
          · exact absurd h (by simp)
          · omega
          · omega
          · omega
        simp [getFileContentWithCache, hp, hcond]
  · intro env rs ast id path s e msg h
    simp only [processOneToolCall]
    rw [h]

/-- C10, witness. -/
theorem claim_C10_witness :
    getFileContentWithCache envAllOk initialAgentState (JsStrVal.str "a.js")
        (JsVal.int 0) (JsVal.int 2) = Except.error "Invalid line numbers provided" ∧
    processOneToolCall envAllOk
        (ToolCall.get_file_content 7 (JsStrVal.str "a.js") (JsVal.int 0) (JsVal.int 2))
        (initialReviewState "u") initialAgentState =
      (some (HistMsg.tool "Error: Invalid line numbers provided" 7),
       initialReviewState "u", initialAgentState, []) :=
  ⟨claim_C10.2.2.1 envAllOk initialAgentState "a.js" (JsVal.int 0) (JsVal.int 2)
     (by decide) (by right; right; left; decide),
   claim_C10.2.2.2 envAllOk (initialReviewState "u") initialAgentState 7
     (JsStrVal.str "a.js") (JsVal.int 0) (JsVal.int 2) _
     (claim_C10.2.2.1 envAllOk initialAgentState "a.js" (JsVal.int 0) (JsVal.int 2)
       (by decide) (by right; right; left; decide))⟩

/- ### C6: seenToolCalls de-duplication -/

/-- Unfolding of `getFileContentWithCache` once the two validation guards
pass. -/
theorem getFileContentWithCache_eq_valid (env : Env) (ast : AgentState)
    (p : String) (sv ev : Int) (hp : (p == "") = false)
    (h1 : 1 ≤ sv) (h2 : sv ≤ ev) :
    getFileContentWithCache env ast (JsStrVal.str p) (JsVal.int sv) (JsVal.int ev) =
      match mapGet ast.fileCache p with
      | some content => Except.ok (windowContent p content sv ev, ast, [])
      | none =>
        match env.fileContentGetter p with
        | Except.error msg =>
            Except.ok ("Error getting file content: " ++ msg, ast, [Event.fetch p])
        | Except.ok content =>
            Except.ok (windowContent p content sv ev,
              { ast with fileCache :=
                  cacheInsertWithEvict ast.fileCache ast.maxCacheEntries p content },
              [Event.fetch p]) := by
  have hcond : ¬ ((sv < 1 ∨ ev < 1) ∨ ev < sv) := by omega
  simp [getFileContentWithCache, hp, hcond]

/-- With valid arguments, `getFileContentWithCache` does not throw. -/
theorem getFileContentWithCache_valid_ok (env : Env) (ast : AgentState)
    (p : String) (sv ev : Int) (hp : (p == "") = false)
    (h1 : 1 ≤ sv) (h2 : sv ≤ ev) :
    ∃ out ast2 evs,
      getFileContentWithCache env ast (JsStrVal.str p) (JsVal.int sv) (JsVal.int ev) =
        Except.ok (out, ast2, evs) := by
  rw [getFileContentWithCache_eq_valid env ast p sv ev hp h1 h2]
  cases mapGet ast.fileCache p with
  | some content => exact ⟨_, _, _, rfl⟩
  | none =>
    cases env.fileContentGetter p with
    | error msg => exact ⟨_, _, _, rfl⟩
    | ok content => exact ⟨_, _, _, rfl⟩

/-- Shape of a successful `getFileContentWithCache` call: either a cache
hit (no event, state unchanged) or a single fetch of the requested path on
a cache miss. -/
theorem getFileContentWithCache_ok_cases (env : Env) (ast : AgentState)
    (p : String) (sv ev : Int) (out : String) (ast2 : AgentState)
    (evs : List Event)
    (h : getFileContentWithCache env ast (JsStrVal.str p) (JsVal.int sv) (JsVal.int ev) =
          Except.ok (out, ast2, evs)) :
    (evs = [] ∧ ast2 = ast) ∨ (evs = [Event.fetch p] ∧ mapGet ast.fileCache p = none) := by
  by_cases hp : (p == "") = true
  · have hbad : getFileContentWithCache env ast (JsStrVal.str p) (JsVal.int sv)
        (JsVal.int ev) = Except.error "Invalid file path provided" := by
      simp [getFileContentWithCache, hp]
    rw [hbad] at h
    exact Except.noConfusion h
  · have hp' : (p == "") = false := by simpa using hp
    by_cases hc : (sv < 1 ∨ ev < 1) ∨ ev < sv
    · have hbad : getFileContentWithCache env ast (JsStrVal.str p) (JsVal.int sv)
          (JsVal.int ev) = Except.error "Invalid line numbers provided" := by
        simp [getFileContentWithCache, hp', hc]
      rw [hbad] at h
      exact Except.noConfusion h
    · rw [getFileContentWithCache_eq_valid env ast p sv ev hp' (by omega) (by omega)] at h
      cases hg : mapGet ast.fileCache p with
      | some content =>
        rw [hg] at h
        simp only [Except.ok.injEq, Prod.mk.injEq] at h
        exact Or.inl ⟨h.2.2.symm, h.2.1.symm⟩
      | none =>
        rw [hg] at h
        cases hf : env.fileContentGetter p with
        | error msg =>
          rw [hf] at h
          simp only [Except.ok.injEq, Prod.mk.injEq] at h
          exact Or.inr ⟨h.2.2.symm, rfl⟩
        | ok content =>
          rw [hf] at h
          simp only [Except.ok.injEq, Prod.mk.injEq] at h
          exact Or.inr ⟨h.2.2.symm, rfl⟩

/-- A request whose key is already in `seenToolCalls` is answered by the
canned notice with no state change and no events. -/
theorem handleGetFileContentDedup_seen (env : Env) (ds : DedupState)
    (ast : AgentState) (p : String) (sv ev : Int)
    (h : ds.seenToolCalls.contains (fileRequestKey p sv ev) = true) :
    handleGetFileContentDedup env ds ast p sv ev = (dedupNotice p sv ev, ds, ast, []) := by
  unfold handleGetFileContentDedup
  rw [h]
  rfl

/-- A request whose key is not yet seen goes through
`getFileContentWithCache`; on success the key is recorded. -/
theorem handleGetFileContentDedup_unseen (env : Env) (ds : DedupState)
    (ast : AgentState) (p : String) (sv ev : Int)
    (out : String) (ast2 : AgentState) (evs : List Event)
    (hseen : ds.seenToolCalls.contains (fileRequestKey p sv ev) = false)
    (hr : getFileContentWithCache env ast (JsStrVal.str p) (JsVal.int sv) (JsVal.int ev) =
          Except.ok (out, ast2, evs)) :
    handleGetFileContentDedup env ds ast p sv ev =
      (out,
       { ds with seenToolCalls := ds.seenToolCalls ++ [fileRequestKey p sv ev],
                 processedFiles := setAdd ds.processedFiles p },
       ast2, evs) := by
  unfold handleGetFileContentDedup
  rw [hseen, hr]
  rfl

/-- C6: once a `(path, start, end)` triple is in `seenToolCalls`, a repeated
`get_file_content` request with the same triple returns the "previously
provided" notice without invoking the content cache or the external fetch
collaborator again (no state change, no events); across two identical
requests the external fetch collaborator is invoked at most once for that
path; and with valid arguments the second of two identical requests always
returns the notice. -/
theorem claim_C6 :
    (∀ env ds ast p sv ev,
      ds.seenToolCalls.contains (fileRequestKey p sv ev) = true →
      handleGetFileContentDedup env ds ast p sv ev =
        (dedupNotice p sv ev, ds, ast, [])) ∧
    (∀ env ds ast p sv ev,
      countFetches p
        ((handleGetFileContentDedup env ds ast p sv ev).2.2.2 ++
          (handleGetFileContentDedup env
            (handleGetFileContentDedup env ds ast p sv ev).2.1
            (handleGetFileContentDedup env ds ast p sv ev).2.2.1 p sv ev).2.2.2) ≤ 1) ∧
    (∀ env ds ast p sv ev,
      (p == "") = false → 1 ≤ sv → sv ≤ ev →
      (handleGetFileContentDedup env
        (handleGetFileContentDedup env ds ast p sv ev).2.1
        (handleGetFileContentDedup env ds ast p sv ev).2.2.1 p sv ev).1 =
        dedupNotice p sv ev) := by
  refine ⟨handleGetFileContentDedup_seen, ?_, ?_⟩
  · intro env ds ast p sv ev
    cases hseen : ds.seenToolCalls.contains (fileRequestKey p sv ev) with
    | true =>
      rw [handleGetFileContentDedup_seen env ds ast p sv ev hseen]
      rw [handleGetFileContentDedup_seen env ds ast p sv ev hseen]
      simp [countFetches]
    | false =>
      cases hr : getFileContentWithCache env ast (JsStrVal.str p) (JsVal.int sv)
          (JsVal.int ev) with
      | error msg =>
        have h1 : handleGetFileContentDedup env ds ast p sv ev =
            ("Error: " ++ msg, ds, ast, []) := by
          unfold handleGetFileContentDedup
          rw [hseen, hr]
          rfl
        rw [h1]
        rw [h1]
        simp [countFetches]
      | ok triple =>
        obtain ⟨out, ast2, evs⟩ := triple
        rw [handleGetFileContentDedup_unseen env ds ast p sv ev out ast2 evs hseen hr]
        have hseen2 : ({ ds with
            seenToolCalls := ds.seenToolCalls ++ [fileRequestKey p sv ev],
            processedFiles := setAdd ds.processedFiles p } :
              DedupState).seenToolCalls.contains (fileRequestKey p sv ev) = true := by
          simp
        rw [handleGetFileContentDedup_seen env _ ast2 p sv ev hseen2]
        rcases getFileContentWithCache_ok_cases env ast p sv ev out ast2 evs hr with
          ⟨hevs, _⟩ | ⟨hevs, _⟩ <;> simp [hevs, countFetches]
  · intro env ds ast p sv ev hp hl1 hl2
    cases hseen : ds.seenToolCalls.contains (fileRequestKey p sv ev) with
    | true =>
      rw [handleGetFileContentDedup_seen env ds ast p sv ev hseen]
      rw [handleGetFileContentDedup_seen env ds ast p sv ev hseen]
    | false =>
      obtain ⟨out, ast2, evs, hr⟩ :=
        getFileContentWithCache_valid_ok env ast p sv ev hp hl1 hl2
      rw [handleGetFileContentDedup_unseen env ds ast p sv ev out ast2 evs hseen hr]
      have hseen2 : ({ ds with
          seenToolCalls := ds.seenToolCalls ++ [fileRequestKey p sv ev],
          processedFiles := setAdd ds.processedFiles p } :
            DedupState).seenToolCalls.contains (fileRequestKey p sv ev) = true := by
        simp
      rw [handleGetFileContentDedup_seen env _ ast2 p sv ev hseen2]

/-- C6, witness. -/
theorem claim_C6_witness :
    (DedupState.mk ["a.js-1-2"] ["a.js"]).seenToolCalls.contains
        (fileRequestKey "a.js" 1 2) = true ∧
    handleGetFileContentDedup envAllOk (DedupState.mk ["a.js-1-2"] ["a.js"])
        initialAgentState "a.js" 1 2 =
      (dedupNotice "a.js" 1 2, DedupState.mk ["a.js-1-2"] ["a.js"],
       initialAgentState, []) :=
  ⟨by decide,
   claim_C6.1 envAllOk (DedupState.mk ["a.js-1-2"] ["a.js"]) initialAgentState
     "a.js" 1 2 (by decide)⟩

/- ### C7: cache bound and FIFO eviction -/

/-- Setting an absent key appends it (insertion order). -/
theorem mapSet_not_has (l : List (String × String)) (k v : String)
    (h : mapHas l k = false) : mapSet l k v = l ++ [(k, v)] := by
  induction l with
  | nil => rfl
  | cons kv rest ih =>
    simp only [mapHas, List.any_cons, Bool.or_eq_false_iff] at h
    simp only [mapSet, h.1, Bool.false_eq_true, if_false, List.cons_append,
      List.cons.injEq, true_and]
    exact ih (by simp [mapHas, h.2])

/-- An absent key has no cached value. -/
theorem mapGet_eq_none (l : List (String × String)) (k : String)
    (h : mapHas l k = false) : mapGet l k = none := by
  induction l with
  | nil => rfl
  | cons kv rest ih =>
    simp only [mapHas, List.any_cons, Bool.or_eq_false_iff] at h
    simp only [mapGet, List.find?_cons, h.1]
    exact ih (by simp [mapHas, h.2])

/-- Setting a key grows the map by at most one entry. -/
theorem mapSet_length_le (l : List (String × String)) (k v : String) :
    (mapSet l k v).length ≤ l.length + 1 := by
  induction l with
  | nil => simp [mapSet]
  | cons kv rest ih =>
    simp only [mapSet]
    split
    · simp
    · simpa using Nat.succ_le_succ ih

/-- The insert-then-evict step keeps the cache within the bound. -/
theorem cacheInsertWithEvict_length (cache : List (String × String))
    (m : Nat) (p c : String) (h : cache.length ≤ m) :
    (cacheInsertWithEvict cache m p c).length ≤ m := by
  unfold cacheInsertWithEvict
  have hle := mapSet_length_le cache p c
  split
  · rename_i hgt
    cases hx : mapSet cache p c with
    | nil =>
      rw [hx] at hgt
      simp at hgt
    | cons kv t =>
      simp only [List.head?_cons, mapDelete, beq_self_eq_true, if_true]
      rw [hx] at hle
      simp only [List.length_cons] at hle
      omega
  · omega

/-- C7: after every completed `getFileContentWithCache` call the cache
holds at most `MAX_CACHE_ENTRIES` entries (with the bound preserved); on a
full cache, fetching a new distinct path evicts exactly the oldest-inserted
entry (FIFO); a path absent from the cache (such as the evicted one)
triggers a fresh call to the external fetch collaborator; and the evicted
key stays absent from the updated cache. -/
theorem claim_C7 :
    MAX_CACHE_ENTRIES = 1000 ∧
    initialAgentState.maxCacheEntries = MAX_CACHE_ENTRIES ∧
    (∀ env ast path s e out ast2 evs,
      ast.fileCache.length ≤ ast.maxCacheEntries →
      getFileContentWithCache env ast path s e = Except.ok (out, ast2, evs) →
      ast2.fileCache.length ≤ ast.maxCacheEntries ∧
        ast2.maxCacheEntries = ast.maxCacheEntries) ∧
    (∀ env ast p sv ev q c0 rest content0,
      ast.fileCache = (q, c0) :: rest →
      ast.fileCache.length = ast.maxCacheEntries →
      mapHas ast.fileCache p = false →
      (p == "") = false → 1 ≤ sv → sv ≤ ev →
      env.fileContentGetter p = Except.ok content0 →
      getFileContentWithCache env ast (JsStrVal.str p) (JsVal.int sv) (JsVal.int ev) =
        Except.ok (windowContent p content0 sv ev,
          { ast with fileCache := rest ++ [(p, content0)] }, [Event.fetch p])) ∧
    (∀ env ast q sv ev,
      mapHas ast.fileCache q = false → (q == "") = false → 1 ≤ sv → sv ≤ ev →
      ∃ out ast2,
        getFileContentWithCache env ast (JsStrVal.str q) (JsVal.int sv) (JsVal.int ev) =
          Except.ok (out, ast2, [Event.fetch q])) ∧
    (∀ (rest : List (String × String)) (p c0 q : String),
      mapHas rest q = false → (p == q) = false →
      mapHas (rest ++ [(p, c0)]) q = false) := by
  refine ⟨rfl, rfl, ?_, ?_, ?_, ?_⟩
  · intro env ast path s e out ast2 evs hlen h
    cases path with
    | nonStr => exact absurd h (by simp [getFileContentWithCache])
    | str p =>
      by_cases hp : (p == "") = true
      · exact absurd h (by simp [getFileContentWithCache, hp])
      · have hp' : (p == "") = false := by simpa using hp
        cases s with
        | nonInt => exact absurd h (by simp [getFileContentWithCache, hp'])
        | int sv =>
          cases e with
          | nonInt => exact absurd h (by simp [getFileContentWithCache, hp'])
          | int ev =>
            by_cases hc : (sv < 1 ∨ ev < 1) ∨ ev < sv
            · exact absurd h (by simp [getFileContentWithCache, hp', hc])
            · rw [getFileContentWithCache_eq_valid env ast p sv ev hp'
                (by omega) (by omega)] at h
              cases hg : mapGet ast.fileCache p with
              | some content =>
                rw [hg] at h
                simp only [Except.ok.injEq, Prod.mk.injEq] at h
                rw [← h.2.1]
                exact ⟨hlen, rfl⟩
              | none =>
                rw [hg] at h
                cases hf : env.fileContentGetter p with
                | error msg =>
                  rw [hf] at h
                  simp only [Except.ok.injEq, Prod.mk.injEq] at h
                  rw [← h.2.1]
                  exact ⟨hlen, rfl⟩
                | ok content =>
                  rw [hf] at h
                  simp only [Except.ok.injEq, Prod.mk.injEq] at h
                  rw [← h.2.1]
                  exact ⟨cacheInsertWithEvict_length ast.fileCache
                    ast.maxCacheEntries p content hlen, rfl⟩
  · intro env ast p sv ev q c0 rest content0 hcache hlen hhas hp h1 h2 hfetch
    have hget : mapGet ast.fileCache p = none := mapGet_eq_none _ _ hhas
    rw [getFileContentWithCache_eq_valid env ast p sv ev hp h1 h2, hget, hfetch]
    have hqp : (q == p) = false := by
      rw [hcache] at hhas
      simp only [mapHas, List.any_cons, Bool.or_eq_false_iff] at hhas
      exact hhas.1
    have hrest : mapHas rest p = false := by
      rw [hcache] at hhas
      simp only [mapHas, List.any_cons, Bool.or_eq_false_iff] at hhas
      simpa [mapHas] using hhas.2
    have hm : ast.maxCacheEntries = rest.length + 1 := by
      rw [hcache] at hlen
      simp only [List.length_cons] at hlen
      omega
    have hev : cacheInsertWithEvict ast.fileCache ast.maxCacheEntries p content0 =
        rest ++ [(p, content0)] := by
      rw [hcache]
      unfold cacheInsertWithEvict
      have hset : mapSet ((q, c0) :: rest) p content0 =
          (q, c0) :: (rest ++ [(p, content0)]) := by
        simp only [mapSet, hqp, Bool.false_eq_true, if_false, List.cons.injEq, true_and]
        exact mapSet_not_has rest p content0 hrest
      rw [hset]
      have hcond : ast.maxCacheEntries < ((q, c0) :: (rest ++ [(p, content0)])).length := by
        simp only [List.length_cons, List.length_append, List.length_cons,
          List.length_nil]
        omega
      rw [if_pos hcond]
      simp only [List.head?_cons, mapDelete, beq_self_eq_true, if_true]
    simp only [hev]
  · intro env ast q sv ev hhas hq h1 h2
    rw [getFileContentWithCache_eq_valid env ast q sv ev hq h1 h2,
      mapGet_eq_none _ _ hhas]
    cases env.fileContentGetter q with
    | error msg => exact ⟨_, _, rfl⟩
    | ok content => exact ⟨_, _, rfl⟩
  · intro rest p c0 q hrest hpq
    simp only [mapHas, List.any_append, List.any_cons, List.any_nil, Bool.or_eq_false_iff]
    constructor
    · simpa [mapHas] using hrest
    · simp [hpq]

/-- C7, witness: a two-entry bound, a full cache, and a third distinct path
evicting the oldest entry. -/
theorem claim_C7_witness :
    (AgentState.mk [("a", "A"), ("b", "B")] 2).fileCache =
        ("a", "A") :: [("b", "B")] ∧
    getFileContentWithCache envAllOk (AgentState.mk [("a", "A"), ("b", "B")] 2)
        (JsStrVal.str "c") (JsVal.int 1) (JsVal.int 1) =
      Except.ok (windowContent "c" "A\nB\nC" 1 1,
        AgentState.mk [("b", "B"), ("c", "A\nB\nC")] 2, [Event.fetch "c"]) :=
  ⟨rfl,
   claim_C7.2.2.2.1 envAllOk (AgentState.mk [("a", "A"), ("b", "B")] 2)
     "c" 1 1 "a" "A" [("b", "B")] "A\nB\nC" rfl rfl (by decide) (by decide)
     (by decide) (by decide) rfl⟩


/- ### C8: the context windower -/

/-- Element-wise characterization of the numbered excerpt: position `i` of
the output is present exactly when the 0-based line index
`windowStart sv + i` lies below `windowEnd lineCount ev`, and then holds
that line of the file rendered with its true 1-indexed number. -/
theorem windowNumbered_getElem (content : String) (sv ev : Int) (i : Nat) :
    (windowNumbered content sv ev)[i]? =
      if windowStart sv + i < windowEnd (splitLinesJs content).length ev then
        ((splitLinesJs content)[windowStart sv + i]?).map
          (renderLine (numberWidth (splitLinesJs content).length) (windowStart sv + i))
      else none := by
  unfold windowNumbered
  rw [List.getElem?_map, List.getElem?_enum, List.getElem?_take, List.getElem?_drop]
  by_cases h : i < windowEnd (splitLinesJs content).length ev - windowStart sv
  · rw [if_pos h, if_pos (by omega)]
    cases (splitLinesJs content)[windowStart sv + i]? with
    | none => rfl
    | some line => rfl
  · rw [if_neg h, if_neg (by omega)]
    rfl

/-- C8: `getFileContentWithCache` returns exactly the lines with 0-based
indices in `[max(0, startLine-1-SPAN), min(lineCount, endLine+SPAN))` with
`SPAN = LINE_SPAN = 20`, each prefixed with its true 1-indexed line number
padded to the fixed width, joined and wrapped in a fenced block labeled
with the file path; in particular a request for lines 5 to 15 of a 30-line
cached file returns all lines 1 through 30. -/
theorem claim_C8 :
    LINE_SPAN = 20 ∧ spanValue = 20 ∧
    (∀ content sv ev i,
      (windowNumbered content sv ev)[i]? =
        if windowStart sv + i < windowEnd (splitLinesJs content).length ev then
          ((splitLinesJs content)[windowStart sv + i]?).map
            (renderLine (numberWidth (splitLinesJs content).length) (windowStart sv + i))
        else none) ∧
    (∀ p content sv ev,
      windowContent p content sv ev =
        "```" ++ escapePath p ++ "\n" ++
          String.intercalate "\n" (windowNumbered content sv ev) ++ "\n```") ∧
    (∀ env ast content,
      (splitLinesJs content).length = 30 →
      mapGet ast.fileCache "a.js" = some content →
      getFileContentWithCache env ast (JsStrVal.str "a.js") (JsVal.int 5) (JsVal.int 15) =
        Except.ok ("```a.js\n" ++ String.intercalate "\n"
            ((splitLinesJs content).enum.map (fun q => renderLine 4 q.1 q.2)) ++ "\n```",
          ast, [])) := by
  refine ⟨rfl, rfl, windowNumbered_getElem, fun p content sv ev => rfl, ?_⟩
  intro env ast content h30 hget
  rw [getFileContentWithCache_eq_valid env ast "a.js" 5 15 (by decide) (by decide)
    (by decide), hget]
  have hwin : windowNumbered content 5 15 =
      (splitLinesJs content).enum.map (fun q => renderLine 4 q.1 q.2) := by
    unfold windowNumbered
    rw [h30]
    have hlo : windowStart 5 = 0 := by decide
    have hhi : windowEnd 30 15 = 30 := by decide
    have hw : numberWidth 30 = 4 := by decide
    rw [hlo, hhi, hw]
    simp only [List.drop_zero, Nat.sub_zero, Nat.zero_add]
    have htake : splitLinesJs content = (splitLinesJs content).take 30 := by
      rw [← h30, List.take_length]
    rw [← htake]
  have hfence : windowContent "a.js" content 5 15 =
      "```a.js\n" ++ String.intercalate "\n"
        ((splitLinesJs content).enum.map (fun q => renderLine 4 q.1 q.2)) ++ "\n```" := by
    unfold windowContent
    rw [hwin]
    rfl
  show Except.ok (windowContent "a.js" content 5 15, ast, ([] : List Event)) = _
  rw [hfence]

/-- A 30-line file used to witness the C8 scenario. -/
def c30 : String := "L1\nL2\nL3\nL4\nL5\nL6\nL7\nL8\nL9\nL10\nL11\nL12\nL13\nL14\nL15\nL16\nL17\nL18\nL19\nL20\nL21\nL22\nL23\nL24\nL25\nL26\nL27\nL28\nL29\nL30"

/-- C8, witness. -/
theorem claim_C8_witness :
    (splitLinesJs c30).length = 30 ∧
    mapGet (AgentState.mk [("a.js", c30)] 1000).fileCache "a.js" = some c30 ∧
    getFileContentWithCache envAllOk (AgentState.mk [("a.js", c30)] 1000)
        (JsStrVal.str "a.js") (JsVal.int 5) (JsVal.int 15) =
      Except.ok ("```a.js\n" ++ String.intercalate "\n"
          ((splitLinesJs c30).enum.map (fun q => renderLine 4 q.1 q.2)) ++ "\n```",
        AgentState.mk [("a.js", c30)] 1000, []) :=
  ⟨by decide, rfl,
   claim_C8.2.2.2.2 envAllOk (AgentState.mk [("a.js", c30)] 1000) c30 (by decide) rfl⟩

/- ### loop bookkeeping lemmas -/

/-- Trace counting distributes over concatenation. -/
theorem countModelCalls_append (l1 l2 : List Event) :
    countModelCalls (l1 ++ l2) = countModelCalls l1 + countModelCalls l2 :=
  List.countP_append _ _ _

/-- A successful `getFileContentWithCache` emits no event or exactly one
fetch. -/
theorem getFileContentWithCache_ok_evs (env : Env) (ast : AgentState)
    (path : JsStrVal) (s e : JsVal) (out : String) (ast2 : AgentState)
    (evs : List Event)
    (h : getFileContentWithCache env ast path s e = Except.ok (out, ast2, evs)) :
    evs = [] ∨ ∃ p, evs = [Event.fetch p] := by
  cases path with
  | nonStr => exact absurd h (by simp [getFileContentWithCache])
  | str p =>
    by_cases hp : (p == "") = true
    · exact absurd h (by simp [getFileContentWithCache, hp])
    · have hp' : (p == "") = false := by simpa using hp
      cases s with
      | nonInt => exact absurd h (by simp [getFileContentWithCache, hp'])
      | int sv =>
        cases e with
        | nonInt => exact absurd h (by simp [getFileContentWithCache, hp'])
        | int ev =>
          by_cases hc : (sv < 1 ∨ ev < 1) ∨ ev < sv
          · exact absurd h (by simp [getFileContentWithCache, hp', hc])
          · rw [getFileContentWithCache_eq_valid env ast p sv ev hp'
              (by omega) (by omega)] at h
            cases hg : mapGet ast.fileCache p with
            | some content =>
              rw [hg] at h
              simp only [Except.ok.injEq, Prod.mk.injEq] at h
              exact Or.inl h.2.2.symm
            | none =>
              rw [hg] at h
              cases hf : env.fileContentGetter p with
              | error msg =>
                rw [hf] at h
                simp only [Except.ok.injEq, Prod.mk.injEq] at h
                exact Or.inr ⟨p, h.2.2.symm⟩
              | ok content =>
                rw [hf] at h
                simp only [Except.ok.injEq, Prod.mk.injEq] at h
                exact Or.inr ⟨p, h.2.2.symm⟩

/-- A comment call emits no event or exactly one dispatch. -/
theorem addReviewComment_evs (env : Env) (fileName : String) (s e : JsVal)
    (desc side : String) :
    (addReviewComment env fileName s e desc side).2 = [] ∨
    ∃ t fn sd a b, (addReviewComment env fileName s e desc side).2 =
      [Event.commentDispatch t fn sd a b] := by
  unfold addReviewComment
  cases validateLineNumbers s e with
  | some err => exact Or.inl rfl
  | none =>
    cases env.fileCommentator desc fileName side (jsToInt s) (jsToInt e) with
    | ok u => exact Or.inr ⟨_, _, _, _, _, rfl⟩
    | error msg => exact Or.inr ⟨_, _, _, _, _, rfl⟩

/-- Bookkeeping facts about one tool-call handler: the message history,
iteration counter and ceiling are untouched; `commentsMade` grows by one
exactly for `add_review_comment`; the summary is overwritten exactly by
`mark_as_done`; no model call is emitted; and the handler produces exactly
one tool reply carrying the call identifier, except `mark_as_done`, which
produces none. -/
theorem processOneToolCall_facts (env : Env) (tc : ToolCall) (rs : ReviewState)
    (ast : AgentState) :
    (processOneToolCall env tc rs ast).2.1.messageHistory = rs.messageHistory ∧
    (processOneToolCall env tc rs ast).2.1.iterationCount = rs.iterationCount ∧
    (processOneToolCall env tc rs ast).2.1.maxIterations = rs.maxIterations ∧
    (processOneToolCall env tc rs ast).2.1.commentsMade =
      rs.commentsMade + (if tc.isAddReviewComment then 1 else 0) ∧
    (processOneToolCall env tc rs ast).2.1.summary = (markValue tc).getD rs.summary ∧
    countModelCalls (processOneToolCall env tc rs ast).2.2.2 = 0 ∧
    (processOneToolCall env tc rs ast).1.toList.map histToolId =
      (if tc.isMarkAsDone then [] else [some tc.callId]) ∧
    (∀ m ∈ (processOneToolCall env tc rs ast).1.toList, m.isAssistant = false) := by
  cases tc with
  | get_file_content id path s e =>
    cases h : getFileContentWithCache env ast path s e with
    | ok triple =>
      obtain ⟨out, ast2, evs⟩ := triple
      have hevs : countModelCalls evs = 0 := by
        rcases getFileContentWithCache_ok_evs env ast path s e out ast2 evs h with
          h1 | ⟨p, h1⟩ <;> simp [h1, countModelCalls]
      simp [processOneToolCall, h, hevs, ToolCall.isAddReviewComment, markValue,
        ToolCall.isMarkAsDone, ToolCall.callId, histToolId, HistMsg.isAssistant]
    | error msg =>
      simp [processOneToolCall, h, countModelCalls, ToolCall.isAddReviewComment,
        markValue, ToolCall.isMarkAsDone, ToolCall.callId, histToolId,
        HistMsg.isAssistant]
  | add_review_comment id file s e desc side =>
    have hevs : countModelCalls (addReviewComment env file s e desc (side.getD "RIGHT")).2 = 0 := by
      rcases addReviewComment_evs env file s e desc (side.getD "RIGHT") with
        h1 | ⟨t, fn, sd, a, b, h1⟩ <;> simp [h1, countModelCalls]
    simp [processOneToolCall, hevs, ToolCall.isAddReviewComment, markValue,
      ToolCall.isMarkAsDone, ToolCall.callId, histToolId, HistMsg.isAssistant]
  | mark_as_done id brief =>
    simp [processOneToolCall, countModelCalls, ToolCall.isAddReviewComment, markValue,
      ToolCall.isMarkAsDone, ToolCall.callId, histToolId, HistMsg.isAssistant]
  | other id name =>
    simp [processOneToolCall, countModelCalls, ToolCall.isAddReviewComment, markValue,
      ToolCall.isMarkAsDone, ToolCall.callId, histToolId, HistMsg.isAssistant]

/-- Unfolding of `processToolCalls` on a non-empty batch. -/
theorem processToolCalls_cons (env : Env) (tc : ToolCall) (rest : List ToolCall)
    (rs : ReviewState) (ast : AgentState) :
    processToolCalls env (tc :: rest) rs ast =
      ((processOneToolCall env tc rs ast).1.toList ++
        (processToolCalls env rest (processOneToolCall env tc rs ast).2.1
          (processOneToolCall env tc rs ast).2.2.1).1,
       (processToolCalls env rest (processOneToolCall env tc rs ast).2.1
          (processOneToolCall env tc rs ast).2.2.1).2.1,
       (processToolCalls env rest (processOneToolCall env tc rs ast).2.1
          (processOneToolCall env tc rs ast).2.2.1).2.2.1,
       (processOneToolCall env tc rs ast).2.2.2 ++
        (processToolCalls env rest (processOneToolCall env tc rs ast).2.1
          (processOneToolCall env tc rs ast).2.2.1).2.2.2) := rfl

/-- Bookkeeping facts about a whole batch of tool calls, by induction over
the batch. -/
theorem processToolCalls_facts (env : Env) : ∀ (tcs : List ToolCall)
    (rs : ReviewState) (ast : AgentState),
    (processToolCalls env tcs rs ast).2.1.messageHistory = rs.messageHistory ∧
    (processToolCalls env tcs rs ast).2.1.iterationCount = rs.iterationCount ∧
    (processToolCalls env tcs rs ast).2.1.maxIterations = rs.maxIterations ∧
    (processToolCalls env tcs rs ast).2.1.commentsMade =
      rs.commentsMade + tcs.countP ToolCall.isAddReviewComment ∧
    (processToolCalls env tcs rs ast).2.1.summary =
      (lastMarkAsDoneSummary tcs).getD rs.summary ∧
    countModelCalls (processToolCalls env tcs rs ast).2.2.2 = 0 ∧
    (processToolCalls env tcs rs ast).1.map histToolId =
      (tcs.filter (fun tc => !tc.isMarkAsDone)).map (fun tc => some tc.callId) ∧
    (∀ m ∈ (processToolCalls env tcs rs ast).1, m.isAssistant = false) := by
  intro tcs
  induction tcs with
  | nil =>
    intro rs ast
    refine ⟨rfl, rfl, rfl, by simp [processToolCalls], by simp [processToolCalls,
      lastMarkAsDoneSummary], rfl, rfl, by simp [processToolCalls]⟩
  | cons tc rest ih =>
    intro rs ast
    obtain ⟨h1, h2, h3, h4, h5, h6, h7, h8⟩ := processOneToolCall_facts env tc rs ast
    obtain ⟨g1, g2, g3, g4, g5, g6, g7, g8⟩ :=
      ih (processOneToolCall env tc rs ast).2.1 (processOneToolCall env tc rs ast).2.2.1
    rw [processToolCalls_cons]
    refine ⟨?_, ?_, ?_, ?_, ?_, ?_, ?_, ?_⟩
    · rw [g1, h1]
    · rw [g2, h2]
    · rw [g3, h3]
    · rw [g4, h4, List.countP_cons]
      omega
    · rw [g5, h5]
      simp only [lastMarkAsDoneSummary]
      cases hl : lastMarkAsDoneSummary rest with
      | some str => simp [hl]
      | none =>
        cases hm : markValue tc with
        | some str => simp [hl, hm]
        | none => simp [hl, hm]
    · rw [countModelCalls_append, g6, h6]
    · rw [List.map_append, g7, h7, List.filter_cons]
      cases hMk : tc.isMarkAsDone with
      | true => simp
      | false => simp
    · intro m hm
      rcases List.mem_append.mp hm with hm1 | hm2
      · exact h8 m hm1
      · exact g8 m hm2

/- ### runLoop unfolding lemmas -/

/-- A null model response throws. -/
theorem runLoop_none (env : Env) (oracle : List (Option Message))
    (rs : ReviewState) (ast : AgentState) :
    runLoop env oracle none rs ast =
      ⟨Except.error "Invalid response from OpenAI API", rs, ast, []⟩ := by
  cases oracle with
  | nil => rfl
  | cons m rest => rfl

/-- The iteration guard: the full quota is honoured, then the fallback
summary is returned at once, pending tool calls notwithstanding. -/
theorem runLoop_guard (env : Env) (oracle : List (Option Message)) (msg : Message)
    (rs : ReviewState) (ast : AgentState) (h : rs.maxIterations ≤ rs.iterationCount) :
    runLoop env oracle (some msg) rs ast =
      ⟨Except.ok (terminatedSummary rs), rs, ast, []⟩ := by
  unfold runLoop
  rw [if_pos h]

/-- A response with no tool calls ends the loop. -/
theorem runLoop_noTools (env : Env) (oracle : List (Option Message)) (msg : Message)
    (rs : ReviewState) (ast : AgentState)
    (hguard : ¬ rs.maxIterations ≤ rs.iterationCount)
    (hempty : msg.tool_calls.isEmpty = true) :
    runLoop env oracle (some msg) rs ast =
      ⟨Except.ok (if (noToolsUpdate msg (afterAssistantPush msg rs)).summary ≠ ""
            then (noToolsUpdate msg (afterAssistantPush msg rs)).summary
            else completedSummary (noToolsUpdate msg (afterAssistantPush msg rs))),
       noToolsUpdate msg (afterAssistantPush msg rs), ast, []⟩ := by
  unfold runLoop
  rw [if_neg hguard, if_pos hempty]

/-- A batch whose processing set the summary ends the loop with it. -/
theorem runLoop_batch_done (env : Env) (oracle : List (Option Message)) (msg : Message)
    (rs : ReviewState) (ast : AgentState)
    (hguard : ¬ rs.maxIterations ≤ rs.iterationCount)
    (hne : msg.tool_calls.isEmpty = false)
    (hsum : (afterBatch env msg rs ast).summary ≠ "") :
    runLoop env oracle (some msg) rs ast =
      ⟨Except.ok (afterBatch env msg rs ast).summary, afterBatch env msg rs ast,
       batchAst env msg rs ast, batchEvents env msg rs ast⟩ := by
  unfold runLoop
  rw [if_neg hguard, if_neg (by rw [hne]; exact Bool.false_ne_true), if_pos hsum]

/-- A batch that did not set the summary is followed by one model call. -/
theorem runLoop_batch_continue (env : Env) (m : Option Message)
    (rest : List (Option Message)) (msg : Message) (rs : ReviewState)
    (ast : AgentState)
    (hguard : ¬ rs.maxIterations ≤ rs.iterationCount)
    (hne : msg.tool_calls.isEmpty = false)
    (hsum : ¬ (afterBatch env msg rs ast).summary ≠ "") :
    runLoop env (m :: rest) (some msg) rs ast =
      ⟨(runLoop env rest m (afterBatch env msg rs ast) (batchAst env msg rs ast)).outcome,
       (runLoop env rest m (afterBatch env msg rs ast) (batchAst env msg rs ast)).rs,
       (runLoop env rest m (afterBatch env msg rs ast) (batchAst env msg rs ast)).ast,
       batchEvents env msg rs ast ++ Event.modelCall ::
         (runLoop env rest m (afterBatch env msg rs ast) (batchAst env msg rs ast)).events⟩ := by
  conv_lhs => unfold runLoop
  rw [if_neg hguard, if_neg (by rw [hne]; exact Bool.false_ne_true), if_neg hsum]

/-- A batch that did not set the summary, with the follow-up call failing. -/
theorem runLoop_batch_exhausted (env : Env) (msg : Message) (rs : ReviewState)
    (ast : AgentState)
    (hguard : ¬ rs.maxIterations ≤ rs.iterationCount)
    (hne : msg.tool_calls.isEmpty = false)
    (hsum : ¬ (afterBatch env msg rs ast).summary ≠ "") :
    runLoop env [] (some msg) rs ast =
      ⟨Except.error "OpenAI API error in follow-up", afterBatch env msg rs ast,
       batchAst env msg rs ast, batchEvents env msg rs ast⟩ := by
  unfold runLoop
  rw [if_neg hguard, if_neg (by rw [hne]; exact Bool.false_ne_true), if_neg hsum]

/- ### review-state facts across one loop step -/

/-- Counting assistant messages distributes over concatenation. -/
theorem assistCount_append (l1 l2 : List HistMsg) :
    assistCount (l1 ++ l2) = assistCount l1 + assistCount l2 :=
  List.countP_append _ _ _

/-- Appending non-assistant messages does not change the assistant count. -/
theorem assistCount_eq_zero (l : List HistMsg)
    (h : ∀ m ∈ l, m.isAssistant = false) : assistCount l = 0 := by
  unfold assistCount
  rw [List.countP_eq_zero]
  intro a ha
  simp [h a ha]

/-- The no-tool-calls update only touches the summary. -/
theorem noToolsUpdate_fields (msg : Message) (rs2 : ReviewState) :
    (noToolsUpdate msg rs2).commentsMade = rs2.commentsMade ∧
    (noToolsUpdate msg rs2).iterationCount = rs2.iterationCount ∧
    (noToolsUpdate msg rs2).messageHistory = rs2.messageHistory := by
  unfold noToolsUpdate
  split <;> exact ⟨rfl, rfl, rfl⟩

/-- State bookkeeping across one processed batch: the iteration counter
went up by exactly one, the ceiling is unchanged, `commentsMade` did not
decrease, exactly one assistant message was recorded, the batch emitted no
model call, and the history only grew. -/
theorem afterBatch_facts (env : Env) (msg : Message) (rs : ReviewState)
    (ast : AgentState) :
    (afterBatch env msg rs ast).iterationCount = rs.iterationCount + 1 ∧
    (afterBatch env msg rs ast).maxIterations = rs.maxIterations ∧
    rs.commentsMade ≤ (afterBatch env msg rs ast).commentsMade ∧
    assistCount (afterBatch env msg rs ast).messageHistory =
      assistCount rs.messageHistory + 1 ∧
    countModelCalls (batchEvents env msg rs ast) = 0 ∧
    rs.messageHistory <+: (afterBatch env msg rs ast).messageHistory := by
  obtain ⟨h1, h2, h3, h4, h5, h6, h7, h8⟩ :=
    processToolCalls_facts env msg.tool_calls (afterAssistantPush msg rs) ast
  refine ⟨?_, ?_, ?_, ?_, h6, ?_⟩
  · show (processToolCalls env msg.tool_calls (afterAssistantPush msg rs)
      ast).2.1.iterationCount = rs.iterationCount + 1
    rw [h2]
    rfl
  · show (processToolCalls env msg.tool_calls (afterAssistantPush msg rs)
      ast).2.1.maxIterations = rs.maxIterations
    rw [h3]
    rfl
  · show rs.commentsMade ≤ (processToolCalls env msg.tool_calls
      (afterAssistantPush msg rs) ast).2.1.commentsMade
    rw [h4]
    show rs.commentsMade ≤ rs.commentsMade + _
    omega
  · show assistCount ((processToolCalls env msg.tool_calls
      (afterAssistantPush msg rs) ast).2.1.messageHistory ++
        (processToolCalls env msg.tool_calls (afterAssistantPush msg rs) ast).1) =
      assistCount rs.messageHistory + 1
    rw [h1]
    rw [assistCount_append, assistCount_eq_zero _ h8]
    show assistCount (rs.messageHistory ++
      [HistMsg.assistant msg.content msg.tool_calls]) + 0 = _
    rw [assistCount_append]
    simp [assistCount, HistMsg.isAssistant]
  · show rs.messageHistory <+: ((processToolCalls env msg.tool_calls
      (afterAssistantPush msg rs) ast).2.1.messageHistory ++
        (processToolCalls env msg.tool_calls (afterAssistantPush msg rs) ast).1)
    rw [h1]
    show rs.messageHistory <+: (rs.messageHistory ++
      [HistMsg.assistant msg.content msg.tool_calls]) ++ _
    rw [List.append_assoc]
    exact List.prefix_append _ _

/-- Master bookkeeping facts of the review loop, by induction over the
oracle: `commentsMade` never decreases; the iteration counter grows by
exactly the number of assistant messages recorded (one per processed model
round-trip); starting at or under the ceiling, the number of follow-up
model calls plus the starting count stays within `maxIterations`; and the
message history only grows. -/
theorem runLoop_facts (env : Env) : ∀ (oracle : List (Option Message))
    (msg : Option Message) (rs : ReviewState) (ast : AgentState),
    rs.commentsMade ≤ (runLoop env oracle msg rs ast).rs.commentsMade ∧
    (runLoop env oracle msg rs ast).rs.iterationCount + assistCount rs.messageHistory =
      rs.iterationCount + assistCount (runLoop env oracle msg rs ast).rs.messageHistory ∧
    (rs.iterationCount ≤ rs.maxIterations →
      countModelCalls (runLoop env oracle msg rs ast).events + rs.iterationCount ≤
        rs.maxIterations) ∧
    rs.messageHistory <+: (runLoop env oracle msg rs ast).rs.messageHistory := by
  intro oracle
  induction oracle with
  | nil =>
    intro msg rs ast
    cases msg with
    | none =>
      rw [runLoop_none]
      exact ⟨Nat.le_refl _, rfl, fun h => by simpa [countModelCalls] using h,
        List.prefix_refl _⟩
    | some m =>
      by_cases hguard : rs.maxIterations ≤ rs.iterationCount
      · rw [runLoop_guard env [] m rs ast hguard]
        exact ⟨Nat.le_refl _, rfl, fun h => by simpa [countModelCalls] using h,
          List.prefix_refl _⟩
      · cases hempty : m.tool_calls.isEmpty with
        | true =>
          rw [runLoop_noTools env [] m rs ast hguard hempty]
          obtain ⟨n1, n2, n3⟩ := noToolsUpdate_fields m (afterAssistantPush m rs)
          refine ⟨?_, ?_, ?_, ?_⟩
          · rw [n1]
            exact Nat.le_refl _
          · rw [n2, n3]
            show rs.iterationCount + 1 + assistCount rs.messageHistory =
              rs.iterationCount + assistCount (rs.messageHistory ++
                [HistMsg.assistant m.content m.tool_calls])
            rw [assistCount_append]
            simp [assistCount, HistMsg.isAssistant]
            omega
          · intro h
            show countModelCalls [] + rs.iterationCount ≤ rs.maxIterations
            simp [countModelCalls]
            omega
          · rw [n3]
            exact List.prefix_append _ _
        | false =>
          by_cases hsum : (afterBatch env m rs ast).summary ≠ ""
          · rw [runLoop_batch_done env [] m rs ast hguard hempty hsum]
            obtain ⟨b1, b2, b3, b4, b5, b6⟩ := afterBatch_facts env m rs ast
            exact ⟨b3, by rw [b1, b4]; omega, fun h => by rw [b5]; omega, b6⟩
          · rw [runLoop_batch_exhausted env m rs ast hguard hempty hsum]
            obtain ⟨b1, b2, b3, b4, b5, b6⟩ := afterBatch_facts env m rs ast
            exact ⟨b3, by rw [b1, b4]; omega, fun h => by rw [b5]; omega, b6⟩
  | cons m2 rest ih =>
    intro msg rs ast
    cases msg with
    | none =>
      rw [runLoop_none]
      exact ⟨Nat.le_refl _, rfl, fun h => by simpa [countModelCalls] using h,
        List.prefix_refl _⟩
    | some m =>
      by_cases hguard : rs.maxIterations ≤ rs.iterationCount
      · rw [runLoop_guard env (m2 :: rest) m rs ast hguard]
        exact ⟨Nat.le_refl _, rfl, fun h => by simpa [countModelCalls] using h,
          List.prefix_refl _⟩
      · cases hempty : m.tool_calls.isEmpty with
        | true =>
          rw [runLoop_noTools env (m2 :: rest) m rs ast hguard hempty]
          obtain ⟨n1, n2, n3⟩ := noToolsUpdate_fields m (afterAssistantPush m rs)
          refine ⟨?_, ?_, ?_, ?_⟩
          · rw [n1]
            exact Nat.le_refl _
          · rw [n2, n3]
            show rs.iterationCount + 1 + assistCount rs.messageHistory =
              rs.iterationCount + assistCount (rs.messageHistory ++
                [HistMsg.assistant m.content m.tool_calls])
            rw [assistCount_append]
            simp [assistCount, HistMsg.isAssistant]
            omega
          · intro h
            show countModelCalls [] + rs.iterationCount ≤ rs.maxIterations
            simp [countModelCalls]
            omega
          · rw [n3]
            exact List.prefix_append _ _
        | false =>
          by_cases hsum : (afterBatch env m rs ast).summary ≠ ""
          · rw [runLoop_batch_done env (m2 :: rest) m rs ast hguard hempty hsum]
            obtain ⟨b1, b2, b3, b4, b5, b6⟩ := afterBatch_facts env m rs ast
            exact ⟨b3, by rw [b1, b4]; omega, fun h => by rw [b5]; omega, b6⟩
          · rw [runLoop_batch_continue env m2 rest m rs ast hguard hempty hsum]
            obtain ⟨b1, b2, b3, b4, b5, b6⟩ := afterBatch_facts env m rs ast
            obtain ⟨i1, i2, i3, i4⟩ := ih m2 (afterBatch env m rs ast)
              (batchAst env m rs ast)
            refine ⟨Nat.le_trans b3 i1, ?_, ?_, ?_⟩
            · show (runLoop env rest m2 (afterBatch env m rs ast)
                (batchAst env m rs ast)).rs.iterationCount +
                  assistCount rs.messageHistory =
                rs.iterationCount + assistCount (runLoop env rest m2
                  (afterBatch env m rs ast) (batchAst env m rs ast)).rs.messageHistory
              omega
            · intro h
              show countModelCalls (batchEvents env m rs ast ++ Event.modelCall ::
                (runLoop env rest m2 (afterBatch env m rs ast)
                  (batchAst env m rs ast)).events) + rs.iterationCount ≤
                rs.maxIterations
              rw [countModelCalls_append, b5]
              have hcons : countModelCalls (Event.modelCall ::
                  (runLoop env rest m2 (afterBatch env m rs ast)
                    (batchAst env m rs ast)).events) =
                  countModelCalls (runLoop env rest m2 (afterBatch env m rs ast)
                    (batchAst env m rs ast)).events + 1 := by
                simp [countModelCalls, List.countP_cons]
              rw [hcons]
              have hi3 := i3 (by omega)
              omega
            · exact List.IsPrefix.trans b6 i4

/- ### C1: iteration counting and guaranteed termination -/

/-- A saturated review state used to witness the iteration guard. -/
def rsSaturated : ReviewState :=
  { summary := ""
    reviewedFiles := ["f.js"]
    commentsMade := 3
    maxIterations := MAX_REVIEW_ITERATIONS
    iterationCount := 142
    messageHistory := [] }

/-- C1: `iterationCount` starts at 0 with the ceiling
`MAX_REVIEW_ITERATIONS = 142`; once it has reached `maxIterations` the loop
returns the fallback summary synthesized from the accumulated counters at
once, regardless of the message's pending tool calls, with no state change
and no events; it is incremented by exactly one per processed model
round-trip (one assistant message recorded per round-trip); and starting
at or under the ceiling the loop issues at most
`maxIterations - iterationCount` follow-up model calls, so the review loop
terminates within `maxIterations` model round-trips. -/
theorem claim_C1 :
    MAX_REVIEW_ITERATIONS = 142 ∧
    (∀ u, (initialReviewState u).iterationCount = 0 ∧
      (initialReviewState u).maxIterations = MAX_REVIEW_ITERATIONS) ∧
    (∀ env oracle msg rs ast, rs.maxIterations ≤ rs.iterationCount →
      runLoop env oracle (some msg) rs ast =
        ⟨Except.ok (terminatedSummary rs), rs, ast, []⟩) ∧
    (∀ env oracle msg rs ast,
      (runLoop env oracle msg rs ast).rs.iterationCount +
        assistCount rs.messageHistory =
      rs.iterationCount +
        assistCount (runLoop env oracle msg rs ast).rs.messageHistory) ∧
    (∀ env oracle msg rs ast, rs.iterationCount ≤ rs.maxIterations →
      countModelCalls (runLoop env oracle msg rs ast).events + rs.iterationCount ≤
        rs.maxIterations) :=
  ⟨rfl, fun _ => ⟨rfl, rfl⟩,
   fun env oracle msg rs ast h => runLoop_guard env oracle msg rs ast h,
   fun env oracle msg rs ast => (runLoop_facts env oracle msg rs ast).2.1,
   fun env oracle msg rs ast h => (runLoop_facts env oracle msg rs ast).2.2.1 h⟩

/-- C1, witness: at the ceiling, a message with a pending completion tool
call is discarded and the fallback summary is returned. -/
theorem claim_C1_witness :
    (initialReviewState "files").iterationCount = 0 ∧
    rsSaturated.maxIterations ≤ rsSaturated.iterationCount ∧
    runLoop envAllOk [] (some (Message.mk "" [ToolCall.mark_as_done 1 "x"]))
        rsSaturated initialAgentState =
      ⟨Except.ok (terminatedSummary rsSaturated), rsSaturated, initialAgentState, []⟩ :=
  ⟨(claim_C1.2.1 "files").1, by decide,
   claim_C1.2.2.1 envAllOk [] (Message.mk "" [ToolCall.mark_as_done 1 "x"])
     rsSaturated initialAgentState (by decide)⟩

/- ### C2: mark_as_done ends the loop with its brief_summary -/

/-- C2, counterexample: the loop checks the captured summary for JS
truthiness, so a `mark_as_done` whose `brief_summary` is the empty string
does not end the loop: a further model call is issued after that batch and
the value eventually returned is not that `brief_summary`. -/
theorem claim_C2_counterexample :
    (runLoop envAllOk [some (Message.mk "later" [])]
      (some (Message.mk "" [ToolCall.mark_as_done 1 ""]))
      (initialReviewState "files") initialAgentState).outcome = Except.ok "later" ∧
    countModelCalls (runLoop envAllOk [some (Message.mk "later" [])]
      (some (Message.mk "" [ToolCall.mark_as_done 1 ""]))
      (initialReviewState "files") initialAgentState).events = 1 :=
  ⟨rfl, rfl⟩

/-- C2 (amended): if the batch of tool calls contains `mark_as_done` and
the last such call's `brief_summary` is non-empty, the review loop returns
that `brief_summary` verbatim and no further model call is issued after
processing that batch. -/
theorem claim_C2_amended (env : Env) (oracle : List (Option Message))
    (msg : Message) (rs : ReviewState) (ast : AgentState) (s : String)
    (hlast : lastMarkAsDoneSummary msg.tool_calls = some s) (hne : s ≠ "")
    (hit : rs.iterationCount < rs.maxIterations) :
    (runLoop env oracle (some msg) rs ast).outcome = Except.ok s ∧
    countModelCalls (runLoop env oracle (some msg) rs ast).events = 0 := by
  have hempty : msg.tool_calls.isEmpty = false := by
    cases htc : msg.tool_calls with
    | nil =>
      rw [htc] at hlast
      exact absurd hlast (by simp [lastMarkAsDoneSummary])
    | cons a t => rfl
  have hsummary : (afterBatch env msg rs ast).summary = s := by
    have h5 := (processToolCalls_facts env msg.tool_calls
      (afterAssistantPush msg rs) ast).2.2.2.2.1
    show (processToolCalls env msg.tool_calls (afterAssistantPush msg rs)
      ast).2.1.summary = s
    rw [h5, hlast]
    rfl
  have hsum : (afterBatch env msg rs ast).summary ≠ "" := by
    rw [hsummary]
    exact hne
  rw [runLoop_batch_done env oracle msg rs ast (by omega) hempty hsum]
  exact ⟨by rw [hsummary], (afterBatch_facts env msg rs ast).2.2.2.2.1⟩

/-- C2, witness. -/
theorem claim_C2_witness :
    lastMarkAsDoneSummary [ToolCall.mark_as_done 1 "done"] = some "done" ∧
    (runLoop envAllOk [] (some (Message.mk "" [ToolCall.mark_as_done 1 "done"]))
      (initialReviewState "files") initialAgentState).outcome = Except.ok "done" ∧
    countModelCalls (runLoop envAllOk []
      (some (Message.mk "" [ToolCall.mark_as_done 1 "done"]))
      (initialReviewState "files") initialAgentState).events = 0 :=
  ⟨rfl,
   (claim_C2_amended envAllOk [] (Message.mk "" [ToolCall.mark_as_done 1 "done"])
     (initialReviewState "files") initialAgentState "done" rfl (by decide)
     (by decide)).1,
   (claim_C2_amended envAllOk [] (Message.mk "" [ToolCall.mark_as_done 1 "done"])
     (initialReviewState "files") initialAgentState "done" rfl (by decide)
     (by decide)).2⟩

/- ### C3: one tool result per call; mark_as_done and the batch -/

/-- C3, counterexample: `mark_as_done` does not short-circuit the batch:
in a batch `[mark_as_done, add_review_comment]` the comment call after the
completion tool is still executed (its dispatch reaches the external
`fileCommentator` and `commentsMade` is incremented), even though the
loop then returns the captured summary. -/
theorem claim_C3_counterexample :
    (runLoop envAllOk [] (some (Message.mk ""
        [ToolCall.mark_as_done 1 "done",
         ToolCall.add_review_comment 2 "f.js" (JsVal.int 1) (JsVal.int 1) "bug" none]))
      (initialReviewState "files") initialAgentState).rs.commentsMade = 1 ∧
    (runLoop envAllOk [] (some (Message.mk ""
        [ToolCall.mark_as_done 1 "done",
         ToolCall.add_review_comment 2 "f.js" (JsVal.int 1) (JsVal.int 1) "bug" none]))
      (initialReviewState "files") initialAgentState).events =
      [Event.commentDispatch "bug" "f.js" "RIGHT" 1 1] ∧
    (runLoop envAllOk [] (some (Message.mk ""
        [ToolCall.mark_as_done 1 "done",
         ToolCall.add_review_comment 2 "f.js" (JsVal.int 1) (JsVal.int 1) "bug" none]))
      (initialReviewState "files") initialAgentState).outcome = Except.ok "done" :=
  ⟨rfl, rfl, rfl⟩

/-- C3 (amended): in each model turn, every tool call of the batch is
executed; every call except `mark_as_done` receives exactly one tool
result, carrying its call identifier, in batch order, while `mark_as_done`
receives none; the batch itself issues no model call and all its tool
results are appended to `messageHistory` before any follow-up model call;
but a `mark_as_done` in the batch does not prevent execution of the
remaining calls (`commentsMade` still counts every `add_review_comment` of
the batch). -/
theorem claim_C3_amended :
    (∀ env tcs rs ast,
      (processToolCalls env tcs rs ast).1.map histToolId =
        (tcs.filter (fun tc => !tc.isMarkAsDone)).map (fun tc => some tc.callId)) ∧
    (∀ env tcs rs ast,
      (processToolCalls env tcs rs ast).2.1.commentsMade =
        rs.commentsMade + tcs.countP ToolCall.isAddReviewComment) ∧
    (∀ env msg rs ast, countModelCalls (batchEvents env msg rs ast) = 0) ∧
    (∀ env oracle msg rs ast, rs.iterationCount < rs.maxIterations →
      msg.tool_calls.isEmpty = false →
      (rs.messageHistory ++ [HistMsg.assistant msg.content msg.tool_calls] ++
        (processToolCalls env msg.tool_calls (afterAssistantPush msg rs) ast).1) <+:
        (runLoop env oracle (some msg) rs ast).rs.messageHistory) := by
  refine ⟨fun env tcs rs ast => (processToolCalls_facts env tcs rs ast).2.2.2.2.2.2.1,
    fun env tcs rs ast => (processToolCalls_facts env tcs rs ast).2.2.2.1,
    fun env msg rs ast => (afterBatch_facts env msg rs ast).2.2.2.2.1, ?_⟩
  intro env oracle msg rs ast hit hne
  have hmh : (afterBatch env msg rs ast).messageHistory =
      rs.messageHistory ++ [HistMsg.assistant msg.content msg.tool_calls] ++
        (processToolCalls env msg.tool_calls (afterAssistantPush msg rs) ast).1 := by
    show (processToolCalls env msg.tool_calls (afterAssistantPush msg rs)
        ast).2.1.messageHistory ++
      (processToolCalls env msg.tool_calls (afterAssistantPush msg rs) ast).1 = _
    rw [(processToolCalls_facts env msg.tool_calls (afterAssistantPush msg rs) ast).1]
    rfl
  by_cases hsum : (afterBatch env msg rs ast).summary ≠ ""
  · rw [runLoop_batch_done env oracle msg rs ast (by omega) hne hsum, ← hmh]
  · cases oracle with
    | nil =>
      rw [runLoop_batch_exhausted env msg rs ast (by omega) hne hsum, ← hmh]
    | cons m2 rest =>
      rw [runLoop_batch_continue env m2 rest msg rs ast (by omega) hne hsum, ← hmh]
      exact (runLoop_facts env rest m2 (afterBatch env msg rs ast)
        (batchAst env msg rs ast)).2.2.2

/-- C3, witness. -/
theorem claim_C3_witness :
    (initialReviewState "u").iterationCount < (initialReviewState "u").maxIterations ∧
    (Message.mk "" [ToolCall.mark_as_done 1 "done"]).tool_calls.isEmpty = false ∧
    ((initialReviewState "u").messageHistory ++
      [HistMsg.assistant "" [ToolCall.mark_as_done 1 "done"]] ++
      (processToolCalls envAllOk [ToolCall.mark_as_done 1 "done"]
        (afterAssistantPush (Message.mk "" [ToolCall.mark_as_done 1 "done"])
          (initialReviewState "u")) initialAgentState).1) <+:
      (runLoop envAllOk [] (some (Message.mk "" [ToolCall.mark_as_done 1 "done"]))
        (initialReviewState "u") initialAgentState).rs.messageHistory :=
  ⟨by decide, rfl,
   claim_C3_amended.2.2.2 envAllOk [] (Message.mk "" [ToolCall.mark_as_done 1 "done"])
     (initialReviewState "u") initialAgentState (by decide) rfl⟩

/- ### C9: what commentsMade counts -/

/-- C9, counterexample: `commentsMade` is incremented even when the
`add_review_comment` call fails validation (start 2 > end 1) and nothing
is dispatched to the external `fileCommentator`: after the turn the
counter is 1 while zero dispatches happened. -/
theorem claim_C9_counterexample :
    (runLoop envAllOk [some (Message.mk "wrap" [])]
      (some (Message.mk "" [ToolCall.add_review_comment 1 "f.js" (JsVal.int 2)
        (JsVal.int 1) "bug" none]))
      (initialReviewState "files") initialAgentState).rs.commentsMade = 1 ∧
    countDispatches (runLoop envAllOk [some (Message.mk "wrap" [])]
      (some (Message.mk "" [ToolCall.add_review_comment 1 "f.js" (JsVal.int 2)
        (JsVal.int 1) "bug" none]))
      (initialReviewState "files") initialAgentState).events = 0 :=
  ⟨rfl, rfl⟩

/-- C9 (amended): `commentsMade` starts at 0 and is monotonically
non-decreasing throughout the loop, and it counts exactly the
`add_review_comment` tool calls processed: it is incremented once per such
call in a batch, whether or not validation or the external dispatch
succeeds. -/
theorem claim_C9_amended :
    (∀ u, (initialReviewState u).commentsMade = 0) ∧
    (∀ env oracle msg rs ast,
      rs.commentsMade ≤ (runLoop env oracle msg rs ast).rs.commentsMade) ∧
    (∀ env tcs rs ast,
      (processToolCalls env tcs rs ast).2.1.commentsMade =
        rs.commentsMade + tcs.countP ToolCall.isAddReviewComment) :=
  ⟨fun _ => rfl,
   fun env oracle msg rs ast => (runLoop_facts env oracle msg rs ast).1,
   fun env tcs rs ast => (processToolCalls_facts env tcs rs ast).2.2.2.1⟩
